import Mathlib

/-!
Shallow embedding of the `ba::async::Queue` core from
`src/include/async/queue.hpp` (the close-state variant: the second document in
that header, together with the queue error enum of `error.hpp`), and of the
pending-operation list `detail::FunctionQueue` from
`src/include/async/queue/detail/function_queue.hpp`.

Modelling conventions:
* `boost::system::error_code` is modelled by `ErrorCode` (a value plus a
  category tag); its boolean conversion (`if (ec)`) is `value != 0`.
* Elements are a type parameter `α`; handlers and fallback value factories are
  opaque and identified by natural-number ids.  A factory application
  `factory(ec)` is recorded symbolically as `PopResult.fromFactory facId ec`.
* `boost::asio::post` of a bound completion handler is modelled by emitting an
  `Event`; every operation returns the list of events it posted, in the order
  of the `post` calls.  No handler is ever invoked synchronously; the events
  are what the executor will run after the lock is released.
* `m_queue` (a `std::queue`) is a `List` whose head is the front; `m_pendingOps`
  (a `detail::FunctionQueue`) is a `List PendingOp` whose head is the front.
-/

namespace BaAsync

/-- Model of `boost::system::error_code`: an integer value and a category tag
(category 0 is the default/system category of `error_code{}`, category 1 is
`queueCategory()` from `error.hpp`).  `operator bool` is `value != 0`. -/
structure ErrorCode where
  value : Nat
  category : Nat
deriving DecidableEq, Repr

/-- The default-constructed `boost::system::error_code{}` (value 0): the
"ok"/open state.  `!ec` holds exactly for codes with value 0. -/
def ErrorCode.clear : ErrorCode := ⟨0, 0⟩

/-- `enum class QueueError` from `error.hpp`: `OK = 0`, `OPERATION_CANCELLED`,
`QUEUE_CLOSED`. -/
inductive QueueError where
  | OK
  | OPERATION_CANCELLED
  | QUEUE_CLOSED
  /-- Modelled from the spec: the enumerator `QUEUE_EMPTY` is used by `tryPop`
  in `queue.hpp` but is missing from the `QueueError` enum in the `error.hpp`
  snapshot under `src/`; per the spec's error taxonomy (§4.4) it is a distinct
  try-only condition code of the queue's error category, modelled here with
  the next free value 3. -/
  | QUEUE_EMPTY
deriving DecidableEq, Repr

/-- `static_cast<int>(e)` for the enum values. -/
def QueueError.toInt : QueueError → Nat
  | .OK => 0
  | .OPERATION_CANCELLED => 1
  | .QUEUE_CLOSED => 2
  | .QUEUE_EMPTY => 3

/-- The category tag of `queueCategory()` from `error.hpp`. -/
def queueCategory : Nat := 1

/-- `make_error_code(QueueError)` from `error.hpp`: the enum value paired with
the queue category. -/
def make_error_code (e : QueueError) : ErrorCode := ⟨e.toInt, queueCategory⟩

/-- An entry of `m_pendingOps` (`detail::FunctionQueue`).  The queue stores
type-erased closures built in `deferPush` / `deferPop`: a parked push captures
the element to insert, a parked pop captures the fallback value factory.  The
handler is identified by a natural-number id, the factory likewise. -/
inductive PendingOp (α : Type) where
  | push (handlerId : Nat) (val : α)
  | pop (handlerId : Nat) (facId : Nat)
deriving DecidableEq, Repr

/-- The value delivered to a pop handler: either a moved-out element or the
fallback factory applied to an error code (recorded symbolically). -/
inductive PopResult (α : Type) where
  | elem (val : α)
  | fromFactory (facId : Nat) (ec : ErrorCode)
deriving DecidableEq, Repr

/-- A completion posted through `boost::asio::post` by `completePush` /
`completePop`: the handler id with the bound arguments. -/
inductive Event (α : Type) where
  | pushDone (handlerId : Nat) (ec : ErrorCode)
  | popDone (handlerId : Nat) (ec : ErrorCode) (val : PopResult α)
deriving DecidableEq, Repr

/-- The handler a posted completion will invoke. -/
def Event.handlerId {α : Type} : Event α → Nat
  | .pushDone h _ => h
  | .popDone h _ _ => h

/-- The state of a `ba::async::Queue` as protected by its mutex:
`m_ex` (the executor handle, opaque, identified by a number), `m_limit`,
`m_queue` (front = head), `m_pendingOps` (front = head),
`m_pendingOpsIsPushers` and `m_closeState`. -/
structure QState (α : Type) where
  ex : Nat
  limit : Nat
  queue : List α
  pendingOps : List (PendingOp α)
  pendingOpsIsPushers : Bool
  closeState : ErrorCode
deriving DecidableEq, Repr

variable {α : Type}

/-- The state of a freshly constructed `Queue{ex, limit}`. -/
def initQ (ex limit : Nat) : QState α :=
  ⟨ex, limit, [], [], false, ErrorCode.clear⟩

/-- `hasPendingPush`: `m_pendingOpsIsPushers && !m_pendingOps.empty()`. -/
def hasPendingPush (s : QState α) : Bool :=
  s.pendingOpsIsPushers && !s.pendingOps.isEmpty

/-- `hasPendingPop`: `!m_pendingOpsIsPushers && !m_pendingOps.empty()`. -/
def hasPendingPop (s : QState α) : Bool :=
  !s.pendingOpsIsPushers && !s.pendingOps.isEmpty

/-- `readyPush`: `m_queue.size() < m_limit || (0 == m_limit && hasPendingPop())`. -/
def readyPush (s : QState α) : Bool :=
  decide (s.queue.length < s.limit) || (s.limit == 0 && hasPendingPop s)

/-- `readyPop`: `!m_queue.empty() || (0 == m_limit && hasPendingPush())`. -/
def readyPop (s : QState α) : Bool :=
  !s.queue.isEmpty || (s.limit == 0 && hasPendingPush s)

/-- `doPush`: `m_queue.emplace(val)` (append at the back). -/
def doPush (v : α) (s : QState α) : QState α :=
  { s with queue := s.queue ++ [v] }

/-- `doPop`: `m_queue.pop()` (remove the front; the source asserts non-empty,
so the empty case is unreachable and left as the identity). -/
def doPop (s : QState α) : QState α :=
  { s with queue := s.queue.tail }

/-- `completePush`: posts `bind_handler(handler, ec)` on the executor. -/
def completePush (h : Nat) (ec : ErrorCode) : Event α :=
  .pushDone h ec

/-- `completePop`: posts `move_binder2(handler, ec, val)` on the executor. -/
def completePop (h : Nat) (ec : ErrorCode) (v : PopResult α) : Event α :=
  .popDone h ec v

/-- `doAsyncPush`: inserts the element, then posts the push completion with
`error_code{}`. -/
def doAsyncPush (v : α) (h : Nat) (s : QState α) : QState α × List (Event α) :=
  (doPush v s, [completePush h ErrorCode.clear])

/-- `doAsyncPop`: posts the pop completion with `error_code{}` and the moved
front element, then removes it.  The source asserts the buffer is non-empty;
the empty case is unreachable and modelled as a no-op. -/
def doAsyncPop (h : Nat) (s : QState α) : QState α × List (Event α) :=
  match s.queue with
  | [] => (s, [])
  | v :: rest => ({ s with queue := rest }, [completePop h ErrorCode.clear (.elem v)])

/-- Firing one parked entry (the closures built in `deferPush` / `deferPop`):
a parked push with a failure code only posts its completion with that code,
with success it performs `doAsyncPush` of the captured element; a parked pop
with a failure code posts its completion with the code and
`defValueFactory(ec)`, with success it performs `doAsyncPop`. -/
def firePending (op : PendingOp α) (ec : ErrorCode) (s : QState α) :
    QState α × List (Event α) :=
  match op with
  | .push h v =>
      if ec.value ≠ 0 then (s, [completePush h ec])
      else doAsyncPush v h s
  | .pop h f =>
      if ec.value ≠ 0 then (s, [completePop h ec (.fromFactory f ec)])
      else doAsyncPop h s

/-- `m_pendingOps.pop(*this, ec)` (`FunctionQueue::pop`): removes the front
entry from the list, then calls it once with `(*this, ec)`; the entry sees the
queue with itself already removed.  Empty list is asserted against in the
source and modelled as a no-op. -/
def pendingOpsPop (ec : ErrorCode) (s : QState α) : QState α × List (Event α) :=
  match s.pendingOps with
  | [] => (s, [])
  | op :: rest => firePending op ec { s with pendingOps := rest }

/-- `doPendingPush(ec)`: fires the front parked push if `hasPendingPush()`,
returning whether one was fired. -/
def doPendingPush (ec : ErrorCode) (s : QState α) :
    Bool × QState α × List (Event α) :=
  if hasPendingPush s then
    let r := pendingOpsPop ec s
    (true, r.1, r.2)
  else (false, s, [])

/-- `doPendingPop(ec)`: fires the front parked pop if `hasPendingPop()`,
returning whether one was fired. -/
def doPendingPop (ec : ErrorCode) (s : QState α) :
    Bool × QState α × List (Event α) :=
  if hasPendingPop s then
    let r := pendingOpsPop ec s
    (true, r.1, r.2)
  else (false, s, [])

/-- The loop body of `doCancel`, recursing on the entry list.  The source loop
is `for (; !m_pendingOps.empty(); ++n) m_pendingOps.pop(*this, ec);`; every
fired closure leaves `m_pendingOps` untouched (`firePending_pendingOps`
below), so structural recursion on the entries is exactly the loop. -/
def doCancelAux (ec : ErrorCode) :
    List (PendingOp α) → QState α → Nat × QState α × List (Event α)
  | [], s => (0, s, [])
  | op :: rest, s =>
      let fired := firePending op ec { s with pendingOps := rest }
      let recd := doCancelAux ec rest fired.1
      (recd.1 + 1, recd.2.1, fired.2 ++ recd.2.2)

/-- `doCancel(ec)`: fires every parked operation with `ec`, front first, and
returns how many were fired. -/
def doCancel (ec : ErrorCode) (s : QState α) : Nat × QState α × List (Event α) :=
  doCancelAux ec s.pendingOps s

/-- `deferPush(handler, val)`: parks a push (append at the back of
`m_pendingOps`) and sets `m_pendingOpsIsPushers = true`. -/
def deferPush (h : Nat) (v : α) (s : QState α) : QState α :=
  { s with pendingOps := s.pendingOps ++ [.push h v], pendingOpsIsPushers := true }

/-- `deferPop(handler, defValueFactory)`: parks a pop (append at the back of
`m_pendingOps`) and sets `m_pendingOpsIsPushers = false`. -/
def deferPop (h : Nat) (f : Nat) (s : QState α) : QState α :=
  { s with pendingOps := s.pendingOps ++ [.pop h f], pendingOpsIsPushers := false }

/-- `initPush(val, handler)`: under the lock, complete with `m_closeState` if
closed; else insert-and-complete and fire a parked pop when `readyPush()`;
else park the push. -/
def initPush (v : α) (h : Nat) (s : QState α) : QState α × List (Event α) :=
  if s.closeState.value ≠ 0 then
    (s, [completePush h s.closeState])
  else if readyPush s then
    let r1 := doAsyncPush v h s
    let r2 := doPendingPop ErrorCode.clear r1.1
    (r2.2.1, r1.2 ++ r2.2.2)
  else
    (deferPush h v s, [])

/-- `initPop(handler, defValueFactory)`: under the lock, first fire a parked
push if any; if one fired or `readyPop()`, extract-and-complete; otherwise
park the pop when open, or complete with `(m_closeState,
defValueFactory(m_closeState))` when closed. -/
def initPop (h : Nat) (f : Nat) (s : QState α) : QState α × List (Event α) :=
  let r1 := doPendingPush ErrorCode.clear s
  if r1.1 || readyPop r1.2.1 then
    let r2 := doAsyncPop h r1.2.1
    (r2.1, r1.2.2 ++ r2.2)
  else if s.closeState.value = 0 then
    (deferPop h f r1.2.1, [])
  else
    (r1.2.1, [completePop h s.closeState (.fromFactory f s.closeState)])

/-- `tryPush(val)`: returns false (leaving everything unchanged) unless
`readyPush()` and open; otherwise inserts and fires a parked pop. -/
def tryPush (v : α) (s : QState α) : Bool × QState α × List (Event α) :=
  if !readyPush s || s.closeState.value ≠ 0 then (false, s, [])
  else
    let s1 := doPush v s
    let r := doPendingPop ErrorCode.clear s1
    (true, r.2.1, r.2.2)

/-- `tryPop(success, defValueFactory)`: first fires a parked push if any; on
failure reports false and returns `defValueFactory(QueueError::QUEUE_EMPTY)`;
on success moves out the front element.  Result:
`(success, value, state, posted events)`. -/
def tryPop (f : Nat) (s : QState α) :
    Bool × PopResult α × QState α × List (Event α) :=
  let r1 := doPendingPush ErrorCode.clear s
  if !r1.1 && !readyPop r1.2.1 then
    (false, .fromFactory f (make_error_code .QUEUE_EMPTY), r1.2.1, r1.2.2)
  else
    match r1.2.1.queue with
    | [] => (false, .fromFactory f (make_error_code .QUEUE_EMPTY), r1.2.1, r1.2.2)
    | v :: rest => (true, .elem v, { r1.2.1 with queue := rest }, r1.2.2)

/-- `cancelOnePush()`: `doPendingPush(OPERATION_CANCELLED)`, count 0 or 1. -/
def cancelOnePush (s : QState α) : Nat × QState α × List (Event α) :=
  let r := doPendingPush (make_error_code .OPERATION_CANCELLED) s
  (if r.1 then 1 else 0, r.2.1, r.2.2)

/-- `cancelOnePop()`: `doPendingPop(OPERATION_CANCELLED)`, count 0 or 1. -/
def cancelOnePop (s : QState α) : Nat × QState α × List (Event α) :=
  let r := doPendingPop (make_error_code .OPERATION_CANCELLED) s
  (if r.1 then 1 else 0, r.2.1, r.2.2)

/-- `cancel()`: `doCancel(OPERATION_CANCELLED)`. -/
def cancel (s : QState α) : Nat × QState α × List (Event α) :=
  doCancel (make_error_code .OPERATION_CANCELLED) s

/-- `cancelPush()`: 0 when the parked role is poppers, else `cancel()`. -/
def cancelPush (s : QState α) : Nat × QState α × List (Event α) :=
  if !s.pendingOpsIsPushers then (0, s, []) else cancel s

/-- `cancelPop()`: 0 when the parked role is pushers, else `cancel()`. -/
def cancelPop (s : QState α) : Nat × QState α × List (Event α) :=
  if s.pendingOpsIsPushers then (0, s, []) else cancel s

/-- `reset()`: empties `m_queue`, `doCancel(OPERATION_CANCELLED)`, clears
`m_closeState`; returns void. -/
def reset (s : QState α) : QState α × List (Event α) :=
  let r := doCancel (make_error_code .OPERATION_CANCELLED) { s with queue := [] }
  ({ r.2.1 with closeState := ErrorCode.clear }, r.2.2)

/-- `close(ec)`: declared `bool close(ec = QUEUE_CLOSED)`.  With `!ec` the
source executes a bare `return;` — no value is produced (modelled as `none`);
otherwise it sets `m_closeState = ec`, drains the parked operations with it,
and falls off the end of the function, again producing no value.  Result:
`(returned value if any, state, posted events)`. -/
def close (ec : ErrorCode) (s : QState α) :
    Option Bool × QState α × List (Event α) :=
  if ec.value = 0 then (none, s, [])
  else
    let s1 := { s with closeState := ec }
    let r := doCancel ec s1
    (none, r.2.1, r.2.2)

/-- Observer `size()`. -/
def size (s : QState α) : Nat := s.queue.length

/-- Observer `empty()`. -/
def empty (s : QState α) : Bool := s.queue.isEmpty

/-- Observer `full()`: `m_queue.size() >= m_limit`. -/
def full (s : QState α) : Bool := decide (s.limit ≤ s.queue.length)

/-- Observer `closeState()`. -/
def closeStateObs (s : QState α) : ErrorCode := s.closeState

/-- Observer `isOpen()`: `!m_closeState`. -/
def isOpen (s : QState α) : Bool := s.closeState.value == 0

/-- The delegating move constructor `Queue(Queue&& other)` /
`Queue(Queue&&, const LockGuard&)`: the new queue takes over every member;
in the source, `other.m_ex` is copied (so `other` stays usable), the moved-from
`std::queue` and `detail::FunctionQueue` are left empty, and the scalar members
`m_limit`, `m_pendingOpsIsPushers` and `m_closeState` are copied — the move
constructor does not call `other.reset()`.  Result `(new queue, moved-from)`. -/
def moveConstruct (other : QState α) : QState α × QState α :=
  (⟨other.ex, other.limit, other.queue, other.pendingOps,
      other.pendingOpsIsPushers, other.closeState⟩,
   ⟨other.ex, other.limit, [], [], other.pendingOpsIsPushers, other.closeState⟩)

/-- Move assignment `operator=(Queue&& other)` for distinct objects: locks
both, `reset()`s itself (cancelling its own parked operations), takes over the
members of `other` (keeping a copy of `other.m_ex`), then calls
`other.reset()`.  Result `(new this, moved-from other, events posted by
this->reset(), events posted by other.reset())`. -/
def moveAssign (self other : QState α) :
    QState α × QState α × List (Event α) × List (Event α) :=
  let r1 := reset self
  let newSelf : QState α :=
    ⟨other.ex, other.limit, other.queue, other.pendingOps,
      other.pendingOpsIsPushers, other.closeState⟩
  let movedOther : QState α :=
    ⟨other.ex, other.limit, [], [], other.pendingOpsIsPushers, other.closeState⟩
  let r2 := reset movedOther
  (newSelf, r2.1, r1.2, r2.2)

/-- One externally initiated, lock-protected mutating operation. -/
inductive Op (α : Type) where
  | initPush (v : α) (h : Nat)
  | initPop (h : Nat) (f : Nat)
  | tryPush (v : α)
  | tryPop (f : Nat)
  | cancelOnePush
  | cancelPush
  | cancelOnePop
  | cancelPop
  | cancel
  | reset
  | close (ec : ErrorCode)

/-- The state transition and posted events of one operation. -/
def step (op : Op α) (s : QState α) : QState α × List (Event α) :=
  match op with
  | .initPush v h => initPush v h s
  | .initPop h f => initPop h f s
  | .tryPush v => let r := tryPush v s; (r.2.1, r.2.2)
  | .tryPop f => let r := tryPop f s; (r.2.2.1, r.2.2.2)
  | .cancelOnePush => let r := cancelOnePush s; (r.2.1, r.2.2)
  | .cancelPush => let r := cancelPush s; (r.2.1, r.2.2)
  | .cancelOnePop => let r := cancelOnePop s; (r.2.1, r.2.2)
  | .cancelPop => let r := cancelPop s; (r.2.1, r.2.2)
  | .cancel => let r := cancel s; (r.2.1, r.2.2)
  | .reset => reset s
  | .close ec => let r := close ec s; (r.2.1, r.2.2)

/-- The four assertions of `checkInvariant()` in `queue.hpp`:
size bounded by the limit, parked pushes only at a full buffer, parked pops
only at an empty buffer, and no parked operations once closed. -/
def checkInvariant (s : QState α) : Bool :=
  decide (s.queue.length ≤ s.limit) &&
  (s.queue.length == s.limit || !hasPendingPush s) &&
  (s.queue.isEmpty || !hasPendingPop s) &&
  (s.closeState.value == 0 || s.pendingOps.isEmpty)

/-- Whether a parked entry is a push. -/
def opIsPush : PendingOp α → Bool
  | .push _ _ => true
  | .pop _ _ => false

/-- Homogeneity of the parked role: every entry of `m_pendingOps` matches
`m_pendingOpsIsPushers`.  In the source this is maintained by the assertions
of `deferPush` / `deferPop` / `doPendingPush` / `doPendingPop`. -/
def roleOk (s : QState α) : Bool :=
  s.pendingOps.all fun op => opIsPush op == s.pendingOpsIsPushers

/-- The full state invariant: `checkInvariant()` plus role homogeneity. -/
def Inv (s : QState α) : Prop :=
  checkInvariant s = true ∧ roleOk s = true

instance (s : QState α) : Decidable (Inv s) := by
  unfold Inv
  infer_instance

/-- The externally observable states: a freshly constructed queue, and
anything produced from observable states by the public operations (including
move construction and move assignment). -/
inductive Reachable : QState α → Prop where
  | init (ex limit : Nat) : Reachable (initQ ex limit)
  | step (op : Op α) {s : QState α} (hs : Reachable s) : Reachable (step op s).1
  | moveCtorNew {s : QState α} (hs : Reachable s) : Reachable (moveConstruct s).1
  | moveCtorFrom {s : QState α} (hs : Reachable s) : Reachable (moveConstruct s).2
  | moveAssignNew {s t : QState α} (hs : Reachable s) (ht : Reachable t) :
      Reachable (moveAssign s t).1
  | moveAssignFrom {s t : QState α} (hs : Reachable s) (ht : Reachable t) :
      Reachable (moveAssign s t).2.1

/-- The handler id a parked entry carries. -/
def PendingOp.handler : PendingOp α → Nat
  | .push h _ => h
  | .pop h _ => h

/-- The completion a parked entry receives when fired with a failure code
(the `ec != 0` branches of the `deferPush` / `deferPop` closures). -/
def cancelEvent (ec : ErrorCode) : PendingOp α → Event α
  | .push h _ => .pushDone h ec
  | .pop h f => .popDone h ec (.fromFactory f ec)

/-- Repeated `tryPush` of a list of values, front first (final state). -/
def tryPushAll (vs : List α) (s : QState α) : QState α :=
  vs.foldl (fun t v => (tryPush v t).2.1) s

/-- `n` repeated `tryPop`s, collecting the returned values and final state. -/
def tryPopAll : Nat → QState α → List (PopResult α) × QState α
  | 0, s => ([], s)
  | n + 1, s =>
      let r := tryPop 0 s
      let rest := tryPopAll n r.2.2.1
      (r.2.1 :: rest.1, rest.2)

/-- Whether every posted completion in `evs` belongs to a handler that was
already parked in `ops` (rather than to a handler of the posting operation
itself). -/
def eventsFromParked (evs : List (Event α)) (ops : List (PendingOp α)) : Bool :=
  evs.all fun e => decide (e.handlerId ∈ ops.map PendingOp.handler)

theorem firePending_pendingOps (op : PendingOp α) (ec : ErrorCode) (s : QState α) :
    ((firePending op ec s).1).pendingOps = s.pendingOps := by
  cases op with
  | push h v =>
      by_cases hec : ec.value = 0 <;> simp [firePending, hec, doAsyncPush, doPush]
  | pop h f =>
      by_cases hec : ec.value = 0
      · simp [firePending, hec, doAsyncPop]
        cases s.queue <;> simp
      · simp [firePending, hec]

theorem firePending_fail (op : PendingOp α) (ec : ErrorCode) (s : QState α)
    (hec : ec.value ≠ 0) :
    firePending op ec s = (s, [cancelEvent ec op]) := by
  cases op <;> simp [firePending, hec, cancelEvent, completePush, completePop]

theorem doCancelAux_spec (ec : ErrorCode) (hec : ec.value ≠ 0) :
    ∀ (ops : List (PendingOp α)) (s : QState α), s.pendingOps = ops →
      doCancelAux ec ops s =
        (ops.length, { s with pendingOps := [] }, ops.map (cancelEvent ec)) := by
  intro ops
  induction ops with
  | nil =>
      intro s hs
      cases s
      simp_all [doCancelAux]
  | cons op rest ih =>
      intro s hs
      simp only [doCancelAux, firePending_fail _ _ _ hec]
      rw [ih { s with pendingOps := rest } rfl]
      simp

theorem doCancel_spec (ec : ErrorCode) (hec : ec.value ≠ 0) (s : QState α) :
    doCancel ec s =
      (s.pendingOps.length, { s with pendingOps := [] },
        s.pendingOps.map (cancelEvent ec)) := by
  exact doCancelAux_spec ec hec s.pendingOps s rfl

theorem cancel_spec (s : QState α) :
    cancel s =
      (s.pendingOps.length, { s with pendingOps := [] },
        s.pendingOps.map (cancelEvent (make_error_code .OPERATION_CANCELLED))) := by
  exact doCancel_spec _ (by simp [make_error_code, QueueError.toInt]) s

theorem reset_spec (s : QState α) :
    reset s =
      ({ s with queue := [], pendingOps := [], closeState := ErrorCode.clear },
        s.pendingOps.map (cancelEvent (make_error_code .OPERATION_CANCELLED))) := by
  simp [reset, doCancel_spec _ (by simp [make_error_code, QueueError.toInt] :
    (make_error_code QueueError.OPERATION_CANCELLED).value ≠ 0)]

theorem close_spec (ec : ErrorCode) (hec : ec.value ≠ 0) (s : QState α) :
    close ec s =
      (none, { s with pendingOps := [], closeState := ec },
        s.pendingOps.map (cancelEvent ec)) := by
  simp [close, hec, doCancel_spec ec hec]

theorem hasPendingPush_iff (s : QState α) :
    hasPendingPush s = true ↔ s.pendingOpsIsPushers = true ∧ s.pendingOps ≠ [] := by
  simp [hasPendingPush, List.isEmpty_iff]

theorem hasPendingPop_iff (s : QState α) :
    hasPendingPop s = true ↔ s.pendingOpsIsPushers = false ∧ s.pendingOps ≠ [] := by
  simp [hasPendingPop, List.isEmpty_iff]

@[simp] theorem clear_value : ErrorCode.clear.value = 0 := rfl

@[simp] theorem hasPendingPop_set_queue (s : QState α) (q : List α) :
    hasPendingPop { s with queue := q } = hasPendingPop s := rfl

@[simp] theorem hasPendingPush_set_queue (s : QState α) (q : List α) :
    hasPendingPush { s with queue := q } = hasPendingPush s := rfl

@[simp] theorem roleOk_set_queue (s : QState α) (q : List α) :
    roleOk { s with queue := q } = roleOk s := rfl

theorem Inv_iff (s : QState α) :
    Inv s ↔
      s.queue.length ≤ s.limit ∧
      (hasPendingPush s = true → s.queue.length = s.limit) ∧
      (hasPendingPop s = true → s.queue = []) ∧
      (s.closeState.value ≠ 0 → s.pendingOps = []) ∧
      roleOk s = true := by
  unfold Inv checkInvariant
  simp only [Bool.and_eq_true, decide_eq_true_eq, Bool.or_eq_true, beq_iff_eq,
    Bool.not_eq_true', List.isEmpty_iff]
  constructor
  · rintro ⟨⟨⟨⟨h1, h2⟩, h3⟩, h4⟩, h5⟩
    refine ⟨h1, fun hp => ?_, fun hp => ?_, fun hc => ?_, h5⟩
    · rcases h2 with h | h
      · exact h
      · simp [h] at hp
    · rcases h3 with h | h
      · exact h
      · simp [h] at hp
    · rcases h4 with h | h
      · exact absurd h hc
      · exact h
  · rintro ⟨h1, h2, h3, h4, h5⟩
    refine ⟨⟨⟨⟨h1, ?_⟩, ?_⟩, ?_⟩, h5⟩
    · by_cases hp : hasPendingPush s = true
      · exact Or.inl (h2 hp)
      · exact Or.inr (by simpa using hp)
    · by_cases hp : hasPendingPop s = true
      · exact Or.inl (h3 hp)
      · exact Or.inr (by simpa using hp)
    · by_cases hc : s.closeState.value = 0
      · exact Or.inl hc
      · exact Or.inr (h4 hc)

theorem roleOk_cons {s : QState α} {op : PendingOp α} {rest : List (PendingOp α)}
    (hops : s.pendingOps = op :: rest) (hr : roleOk s = true) :
    opIsPush op = s.pendingOpsIsPushers ∧
      roleOk { s with pendingOps := rest } = true := by
  unfold roleOk at hr ⊢
  rw [hops] at hr
  simp only [List.all_cons, Bool.and_eq_true, beq_iff_eq] at hr
  exact ⟨hr.1, by simpa using hr.2⟩

theorem head_push_of_hasPendingPush {s : QState α} (hr : roleOk s = true)
    (hp : hasPendingPush s = true) :
    ∃ h v rest, s.pendingOps = PendingOp.push h v :: rest := by
  obtain ⟨hflag, hne⟩ := (hasPendingPush_iff s).1 hp
  obtain ⟨op, rest, hops⟩ := List.exists_cons_of_ne_nil hne
  obtain ⟨h1, -⟩ := roleOk_cons hops hr
  cases op with
  | push h v => exact ⟨h, v, rest, hops⟩
  | pop h f => simp [opIsPush, hflag] at h1

theorem head_pop_of_hasPendingPop {s : QState α} (hr : roleOk s = true)
    (hp : hasPendingPop s = true) :
    ∃ h f rest, s.pendingOps = PendingOp.pop h f :: rest := by
  obtain ⟨hflag, hne⟩ := (hasPendingPop_iff s).1 hp
  obtain ⟨op, rest, hops⟩ := List.exists_cons_of_ne_nil hne
  obtain ⟨h1, -⟩ := roleOk_cons hops hr
  cases op with
  | push h v => simp [opIsPush, hflag] at h1
  | pop h f => exact ⟨h, f, rest, hops⟩

theorem initPush_closed (v : α) (h : Nat) (s : QState α)
    (hc : s.closeState.value ≠ 0) :
    initPush v h s = (s, [.pushDone h s.closeState]) := by
  simp [initPush, hc, completePush]

theorem initPush_meet (v : α) (h h2 f2 : Nat) (s : QState α)
    (hopen : s.closeState.value = 0) (hq : s.queue = [])
    (hflag : s.pendingOpsIsPushers = false)
    (hops : s.pendingOps = PendingOp.pop h2 f2 :: rest) :
    initPush v h s =
      ({ s with pendingOps := rest },
        [.pushDone h ErrorCode.clear, .popDone h2 ErrorCode.clear (.elem v)]) := by
  have hready : readyPush s = true := by
    rcases Nat.eq_zero_or_pos s.limit with hl | hl
    · simp [readyPush, hl, hasPendingPop, hflag, hops]
    · simp [readyPush, hq, hl]
  simp [initPush, hopen, hready, doAsyncPush, doPush, hq, doPendingPop,
    hasPendingPop, hflag, hops, pendingOpsPop, firePending, doAsyncPop,
    completePush, completePop]

theorem initPush_room (v : α) (h : Nat) (s : QState α)
    (hopen : s.closeState.value = 0) (hlen : s.queue.length < s.limit)
    (hnp : hasPendingPop s = false) :
    initPush v h s =
      ({ s with queue := s.queue ++ [v] }, [.pushDone h ErrorCode.clear]) := by
  have hready : readyPush s = true := by simp [readyPush, hlen]
  simp [initPush, hopen, hready, doAsyncPush, doPush, doPendingPop, hnp,
    completePush]

theorem initPush_park (v : α) (h : Nat) (s : QState α)
    (hopen : s.closeState.value = 0) (hready : readyPush s = false) :
    initPush v h s = (deferPush h v s, []) := by
  simp [initPush, hopen, hready]

theorem initPop_noPending_empty (h f : Nat) (s : QState α)
    (hops : s.pendingOps = []) (hq : s.queue = [])
    (hc : s.closeState.value ≠ 0) :
    initPop h f s =
      (s, [.popDone h s.closeState (.fromFactory f s.closeState)]) := by
  simp [initPop, doPendingPush, hasPendingPush, hops, readyPop, hq, hc,
    completePop]

theorem initPop_noPending_empty_open (h f : Nat) (s : QState α)
    (hnp : hasPendingPush s = false) (hq : s.queue = [])
    (hc : s.closeState.value = 0) :
    initPop h f s = (deferPop h f s, []) := by
  simp [initPop, doPendingPush, hnp, readyPop, hq, hc]

theorem initPop_direct (h f : Nat) (v : α) (rest : List α) (s : QState α)
    (hnp : hasPendingPush s = false) (hq : s.queue = v :: rest) :
    initPop h f s =
      ({ s with queue := rest }, [.popDone h ErrorCode.clear (.elem v)]) := by
  simp [initPop, doPendingPush, hnp, readyPop, hq, doAsyncPop, completePop]

theorem initPop_fired_empty (h f h2 : Nat) (v2 : α) (rest : List (PendingOp α))
    (s : QState α) (hflag : s.pendingOpsIsPushers = true)
    (hops : s.pendingOps = PendingOp.push h2 v2 :: rest) (hq : s.queue = []) :
    initPop h f s =
      ({ s with pendingOps := rest },
        [.pushDone h2 ErrorCode.clear, .popDone h ErrorCode.clear (.elem v2)]) := by
  simp [initPop, doPendingPush, hasPendingPush, hflag, hops, pendingOpsPop,
    firePending, doAsyncPush, doPush, hq, doAsyncPop, completePush, completePop]

theorem initPop_fired_cons (h f h2 : Nat) (v2 w : α) (q2 : List α)
    (rest : List (PendingOp α)) (s : QState α)
    (hflag : s.pendingOpsIsPushers = true)
    (hops : s.pendingOps = PendingOp.push h2 v2 :: rest)
    (hq : s.queue = w :: q2) :
    initPop h f s =
      ({ s with queue := q2 ++ [v2], pendingOps := rest },
        [.pushDone h2 ErrorCode.clear, .popDone h ErrorCode.clear (.elem w)]) := by
  simp [initPop, doPendingPush, hasPendingPush, hflag, hops, pendingOpsPop,
    firePending, doAsyncPush, doPush, hq, doAsyncPop, completePush, completePop]

theorem tryPush_fail (v : α) (s : QState α)
    (hfail : readyPush s = false ∨ s.closeState.value ≠ 0) :
    tryPush v s = (false, s, []) := by
  rcases hfail with hf | hf
  · simp [tryPush, hf]
  · simp [tryPush, hf]

theorem tryPush_meet (v : α) (h2 f2 : Nat) (rest : List (PendingOp α))
    (s : QState α) (hopen : s.closeState.value = 0) (hq : s.queue = [])
    (hflag : s.pendingOpsIsPushers = false)
    (hops : s.pendingOps = PendingOp.pop h2 f2 :: rest) :
    tryPush v s =
      (true, { s with pendingOps := rest },
        [.popDone h2 ErrorCode.clear (.elem v)]) := by
  have hready : readyPush s = true := by
    rcases Nat.eq_zero_or_pos s.limit with hl | hl
    · simp [readyPush, hl, hasPendingPop, hflag, hops]
    · simp [readyPush, hq, hl]
  simp [tryPush, hopen, hready, doPush, hq, doPendingPop, hasPendingPop,
    hflag, hops, pendingOpsPop, firePending, doAsyncPop, completePop]

theorem tryPush_room (v : α) (s : QState α)
    (hopen : s.closeState.value = 0) (hlen : s.queue.length < s.limit)
    (hnp : hasPendingPop s = false) :
    tryPush v s = (true, { s with queue := s.queue ++ [v] }, []) := by
  have hready : readyPush s = true := by simp [readyPush, hlen]
  simp [tryPush, hopen, hready, doPush, doPendingPop, hnp]

theorem tryPop_fail (f : Nat) (s : QState α)
    (hnp : hasPendingPush s = false) (hq : s.queue = []) :
    tryPop f s =
      (false, .fromFactory f (make_error_code .QUEUE_EMPTY), s, []) := by
  simp [tryPop, doPendingPush, hnp, readyPop, hq]

theorem tryPop_direct (f : Nat) (v : α) (rest : List α) (s : QState α)
    (hnp : hasPendingPush s = false) (hq : s.queue = v :: rest) :
    tryPop f s = (true, .elem v, { s with queue := rest }, []) := by
  simp [tryPop, doPendingPush, hnp, readyPop, hq]

theorem tryPop_fired_empty (f h2 : Nat) (v2 : α) (rest : List (PendingOp α))
    (s : QState α) (hflag : s.pendingOpsIsPushers = true)
    (hops : s.pendingOps = PendingOp.push h2 v2 :: rest) (hq : s.queue = []) :
    tryPop f s =
      (true, .elem v2, { s with queue := [], pendingOps := rest },
        [.pushDone h2 ErrorCode.clear]) := by
  simp [tryPop, doPendingPush, hasPendingPush, hflag, hops, pendingOpsPop,
    firePending, doAsyncPush, doPush, hq, completePush]

theorem tryPop_fired_cons (f h2 : Nat) (v2 w : α) (q2 : List α)
    (rest : List (PendingOp α)) (s : QState α)
    (hflag : s.pendingOpsIsPushers = true)
    (hops : s.pendingOps = PendingOp.push h2 v2 :: rest)
    (hq : s.queue = w :: q2) :
    tryPop f s =
      (true, .elem w, { s with queue := q2 ++ [v2], pendingOps := rest },
        [.pushDone h2 ErrorCode.clear]) := by
  simp [tryPop, doPendingPush, hasPendingPush, hflag, hops, pendingOpsPop,
    firePending, doAsyncPush, doPush, hq, completePush]

theorem cancelOnePush_none (s : QState α) (hnp : hasPendingPush s = false) :
    cancelOnePush s = (0, s, []) := by
  simp [cancelOnePush, doPendingPush, hnp]

theorem cancelOnePush_one (h2 : Nat) (v2 : α) (rest : List (PendingOp α))
    (s : QState α) (hflag : s.pendingOpsIsPushers = true)
    (hops : s.pendingOps = PendingOp.push h2 v2 :: rest) :
    cancelOnePush s =
      (1, { s with pendingOps := rest },
        [.pushDone h2 (make_error_code .OPERATION_CANCELLED)]) := by
  simp [cancelOnePush, doPendingPush, hasPendingPush, hflag, hops,
    pendingOpsPop, firePending, make_error_code, QueueError.toInt,
    completePush]

theorem cancelOnePop_none (s : QState α) (hnp : hasPendingPop s = false) :
    cancelOnePop s = (0, s, []) := by
  simp [cancelOnePop, doPendingPop, hnp]

theorem cancelOnePop_one (h2 f2 : Nat) (rest : List (PendingOp α))
    (s : QState α) (hflag : s.pendingOpsIsPushers = false)
    (hops : s.pendingOps = PendingOp.pop h2 f2 :: rest) :
    cancelOnePop s =
      (1, { s with pendingOps := rest },
        [.popDone h2 (make_error_code .OPERATION_CANCELLED)
          (.fromFactory f2 (make_error_code .OPERATION_CANCELLED))]) := by
  simp [cancelOnePop, doPendingPop, hasPendingPop, hflag, hops,
    pendingOpsPop, firePending, make_error_code, QueueError.toInt,
    completePop]

theorem firePending_events (op : PendingOp α) (ec : ErrorCode) (s : QState α) :
    ∀ e ∈ (firePending op ec s).2, e.handlerId = op.handler := by
  cases op with
  | push h v =>
      by_cases hec : ec.value = 0 <;>
        simp [firePending, hec, doAsyncPush, completePush, Event.handlerId,
          PendingOp.handler]
  | pop h f =>
      by_cases hec : ec.value = 0
      · simp only [firePending, hec, ne_eq, not_true_eq_false, if_false,
          doAsyncPop]
        cases s.queue <;>
          simp [completePop, Event.handlerId, PendingOp.handler]
      · simp [firePending, hec, completePop, Event.handlerId, PendingOp.handler]

theorem pendingOpsPop_ops (ec : ErrorCode) (s : QState α) :
    (pendingOpsPop ec s).1.pendingOps = s.pendingOps.tail ∨
      (pendingOpsPop ec s).1.pendingOps = s.pendingOps := by
  unfold pendingOpsPop
  cases hops : s.pendingOps with
  | nil => right; simp [hops]
  | cons op rest => left; simp [firePending_pendingOps]

theorem pendingOpsPop_events (ec : ErrorCode) (s : QState α) :
    ∀ e ∈ (pendingOpsPop ec s).2, ∃ op ∈ s.pendingOps, e.handlerId = op.handler := by
  unfold pendingOpsPop
  cases hops : s.pendingOps with
  | nil => simp
  | cons op rest =>
      intro e he
      exact ⟨op, by simp, firePending_events op ec _ e he⟩

theorem doPendingPop_ops (ec : ErrorCode) (s : QState α) :
    (doPendingPop ec s).2.1.pendingOps = s.pendingOps ∨
      (doPendingPop ec s).2.1.pendingOps = s.pendingOps.tail := by
  unfold doPendingPop
  split
  · rcases pendingOpsPop_ops ec s with h | h
    · right; exact h
    · left; exact h
  · left; rfl

theorem doPendingPop_events (ec : ErrorCode) (s : QState α) :
    ∀ e ∈ (doPendingPop ec s).2.2, ∃ op ∈ s.pendingOps, e.handlerId = op.handler := by
  unfold doPendingPop
  split
  · exact pendingOpsPop_events ec s
  · simp

theorem doPendingPush_ops (ec : ErrorCode) (s : QState α) :
    (doPendingPush ec s).2.1.pendingOps = s.pendingOps ∨
      (doPendingPush ec s).2.1.pendingOps = s.pendingOps.tail := by
  unfold doPendingPush
  split
  · rcases pendingOpsPop_ops ec s with h | h
    · right; exact h
    · left; exact h
  · left; rfl

theorem doPendingPush_events (ec : ErrorCode) (s : QState α) :
    ∀ e ∈ (doPendingPush ec s).2.2, ∃ op ∈ s.pendingOps, e.handlerId = op.handler := by
  unfold doPendingPush
  split
  · exact pendingOpsPop_events ec s
  · simp

theorem tryPush_noPark (v : α) (s : QState α) :
    (tryPush v s).2.1.pendingOps = s.pendingOps ∨
      (tryPush v s).2.1.pendingOps = s.pendingOps.tail := by
  unfold tryPush
  split
  · left; rfl
  · simpa [doPush] using doPendingPop_ops ErrorCode.clear (doPush v s)

theorem tryPush_events_parked (v : α) (s : QState α) :
    ∀ e ∈ (tryPush v s).2.2, ∃ op ∈ s.pendingOps, e.handlerId = op.handler := by
  unfold tryPush
  split
  · simp
  · intro e he
    simpa [doPush] using
      doPendingPop_events ErrorCode.clear (doPush v s) e (by simpa using he)

theorem tryPop_noPark (f : Nat) (s : QState α) :
    (tryPop f s).2.2.1.pendingOps = s.pendingOps ∨
      (tryPop f s).2.2.1.pendingOps = s.pendingOps.tail := by
  simp only [tryPop]
  split
  · exact doPendingPush_ops ErrorCode.clear s
  · split
    · exact doPendingPush_ops ErrorCode.clear s
    · simpa using doPendingPush_ops ErrorCode.clear s

theorem tryPop_events_parked (f : Nat) (s : QState α) :
    ∀ e ∈ (tryPop f s).2.2.2, ∃ op ∈ s.pendingOps, e.handlerId = op.handler := by
  simp only [tryPop]
  split
  · exact doPendingPush_events ErrorCode.clear s
  · split
    · exact doPendingPush_events ErrorCode.clear s
    · simpa using doPendingPush_events ErrorCode.clear s

theorem tryPushAll_spec (vs : List α) : ∀ (s : QState α),
    s.closeState.value = 0 → s.pendingOps = [] →
    s.queue.length + vs.length ≤ s.limit →
    tryPushAll vs s = { s with queue := s.queue ++ vs } := by
  induction vs with
  | nil =>
      intro s _ _ _
      cases s
      simp [tryPushAll]
  | cons v vs ih =>
      intro s hopen hops hlen
      have hnp : hasPendingPop s = false := by simp [hasPendingPop, hops]
      have hlt : s.queue.length < s.limit := by
        simp only [List.length_cons] at hlen
        omega
      unfold tryPushAll
      simp only [List.foldl_cons]
      rw [show (tryPush v s).2.1 = { s with queue := s.queue ++ [v] } by
        rw [tryPush_room v s hopen hlt hnp]]
      have hrec := ih { s with queue := s.queue ++ [v] } (by simpa using hopen)
        (by simpa using hops)
        (by simp only [List.length_cons] at hlen; simp; omega)
      unfold tryPushAll at hrec
      rw [hrec]
      simp

theorem tryPopAll_spec : ∀ (q : List α) (s : QState α),
    s.pendingOps = [] → s.queue = q →
    tryPopAll q.length s = (q.map PopResult.elem, { s with queue := [] }) := by
  intro q
  induction q with
  | nil =>
      intro s hops hq
      cases s
      simp_all [tryPopAll]
  | cons v q ih =>
      intro s hops hq
      have hnp : hasPendingPush s = false := by simp [hasPendingPush, hops]
      simp only [List.length_cons, tryPopAll]
      rw [tryPop_direct 0 v q s hnp hq]
      have hrec := ih { s with queue := q } (by simpa using hops) rfl
      simp only at hrec
      rw [hrec]
      simp

theorem open_of_pendingOps_ne_nil {s : QState α} (h4 : s.closeState.value ≠ 0 → s.pendingOps = [])
    (hne : s.pendingOps ≠ []) : s.closeState.value = 0 := by
  by_contra hc
  exact hne (h4 hc)

theorem inv_initPush (v : α) (h : Nat) (s : QState α) (hs : Inv s) :
    Inv (initPush v h s).1 := by
  obtain ⟨h1, h2, h3, h4, h5⟩ := (Inv_iff s).1 hs
  by_cases hc : s.closeState.value = 0
  · by_cases hpp : hasPendingPop s = true
    · obtain ⟨hh, ff, rest, hops⟩ := head_pop_of_hasPendingPop h5 hpp
      have hq := h3 hpp
      have hflag := ((hasPendingPop_iff s).1 hpp).1
      rw [initPush_meet v h hh ff s hc hq hflag hops, Inv_iff]
      refine ⟨by simp [hq], ?_, fun _ => by simp [hq], ?_, (roleOk_cons hops h5).2⟩
      · intro hp
        rw [hasPendingPush_iff] at hp
        simp [hflag] at hp
      · intro hcc
        simp [hc] at hcc
    · replace hpp : hasPendingPop s = false := by simpa using hpp
      by_cases hlen : s.queue.length < s.limit
      · rw [initPush_room v h s hc hlen hpp, Inv_iff]
        have hnp2 : hasPendingPush s = false := by
          cases hb : hasPendingPush s
          · rfl
          · have := h2 hb
            omega
        refine ⟨by simp; omega, ?_, ?_, ?_, by simpa using h5⟩
        · intro hp
          rw [hasPendingPush_set_queue, hnp2] at hp
          cases hp
        · intro hp
          rw [hasPendingPop_set_queue, hpp] at hp
          cases hp
        · intro hcc
          simp [hc] at hcc
      · have hready : readyPush s = false := by
          simp [readyPush, hlen, hpp]
        rw [initPush_park v h s hc hready, Inv_iff]
        have hlen2 : s.queue.length = s.limit := by omega
        refine ⟨by simpa [deferPush] using h1, fun _ => by simpa [deferPush] using hlen2,
          ?_, ?_, ?_⟩
        · intro hp
          rw [hasPendingPop_iff] at hp
          simp [deferPush] at hp
        · intro hcc
          simp [deferPush, hc] at hcc
        · cases hops : s.pendingOps with
          | nil =>
              simp [roleOk, deferPush, hops, opIsPush]
          | cons op rest =>
              have hflag : s.pendingOpsIsPushers = true := by
                cases hb : s.pendingOpsIsPushers
                · exact absurd ((hasPendingPop_iff s).2 ⟨hb, by simp [hops]⟩)
                    (by simp [hpp])
                · rfl
              unfold roleOk at h5 ⊢
              rw [hops] at h5
              simp only [deferPush, hops, hflag] at *
              simp only [List.all_append, List.all_cons, Bool.and_eq_true,
                beq_iff_eq] at h5 ⊢
              exact ⟨⟨by simpa using h5.1, by simpa using h5.2⟩,
                by simp [opIsPush]⟩
  · rw [initPush_closed v h s hc]
    exact hs

theorem inv_initPop (h f : Nat) (s : QState α) (hs : Inv s) :
    Inv (initPop h f s).1 := by
  obtain ⟨h1, h2, h3, h4, h5⟩ := (Inv_iff s).1 hs
  by_cases hpp : hasPendingPush s = true
  · obtain ⟨hh, vv, rest, hops⟩ := head_push_of_hasPendingPush h5 hpp
    have hflag := ((hasPendingPush_iff s).1 hpp).1
    have hlen := h2 hpp
    have hc : s.closeState.value = 0 :=
      open_of_pendingOps_ne_nil h4 (by simp [hops])
    cases hq : s.queue with
    | nil =>
        rw [initPop_fired_empty h f hh vv rest s hflag hops hq, Inv_iff]
        rw [hq] at hlen
        simp only [List.length_nil] at hlen
        refine ⟨by simpa using h1, fun _ => by simpa [hq] using hlen,
          fun _ => hq, ?_, (roleOk_cons hops h5).2⟩
        · intro hcc
          simp [hc] at hcc
    | cons w q2 =>
        rw [initPop_fired_cons h f hh vv w q2 rest s hflag hops hq, Inv_iff]
        rw [hq] at hlen
        simp only [List.length_cons] at hlen
        refine ⟨by simp; omega, fun _ => by simp; omega, ?_, ?_,
          (roleOk_cons hops h5).2⟩
        · intro hp
          rw [hasPendingPop_iff] at hp
          simp [hflag] at hp
        · intro hcc
          simp [hc] at hcc
  · replace hpp : hasPendingPush s = false := by simpa using hpp
    cases hq : s.queue with
    | cons v rest =>
        rw [initPop_direct h f v rest s hpp hq, Inv_iff]
        refine ⟨by simp [hq] at h1 ⊢; omega, ?_, ?_, ?_, by simpa using h5⟩
        · intro hp
          rw [hasPendingPush_set_queue, hpp] at hp
          cases hp
        · intro hp
          rw [hasPendingPop_set_queue] at hp
          have := h3 hp
          rw [hq] at this
          cases this
        · intro hcc
          simpa using h4 hcc
    | nil =>
        by_cases hc : s.closeState.value = 0
        · rw [initPop_noPending_empty_open h f s hpp hq hc, Inv_iff]
          refine ⟨by simp [deferPop, hq], ?_, fun _ => by simp [deferPop, hq],
            ?_, ?_⟩
          · intro hp
            rw [hasPendingPush_iff] at hp
            simp [deferPop] at hp
          · intro hcc
            simp [deferPop, hc] at hcc
          · cases hops : s.pendingOps with
            | nil =>
                simp [roleOk, deferPop, hops, opIsPush]
            | cons op rest =>
                have hflag : s.pendingOpsIsPushers = false := by
                  cases hb : s.pendingOpsIsPushers
                  · rfl
                  · exact absurd ((hasPendingPush_iff s).2 ⟨hb, by simp [hops]⟩)
                      (by simp [hpp])
                unfold roleOk at h5 ⊢
                rw [hops] at h5
                simp only [deferPop, hops, hflag] at *
                simp only [List.all_append, List.all_cons, Bool.and_eq_true,
                  beq_iff_eq] at h5 ⊢
                exact ⟨⟨by simpa using h5.1, by simpa using h5.2⟩,
                  by simp [opIsPush]⟩
        · rw [initPop_noPending_empty h f s (h4 hc) hq hc]
          exact hs

theorem inv_tryPush (v : α) (s : QState α) (hs : Inv s) :
    Inv (tryPush v s).2.1 := by
  obtain ⟨h1, h2, h3, h4, h5⟩ := (Inv_iff s).1 hs
  by_cases hc : s.closeState.value = 0
  · by_cases hready : readyPush s = true
    · by_cases hpp : hasPendingPop s = true
      · obtain ⟨hh, ff, rest, hops⟩ := head_pop_of_hasPendingPop h5 hpp
        have hq := h3 hpp
        have hflag := ((hasPendingPop_iff s).1 hpp).1
        rw [tryPush_meet v hh ff rest s hc hq hflag hops, Inv_iff]
        refine ⟨by simp [hq], ?_, fun _ => by simp [hq], ?_,
          (roleOk_cons hops h5).2⟩
        · intro hp
          rw [hasPendingPush_iff] at hp
          simp [hflag] at hp
        · intro hcc
          simp [hc] at hcc
      · replace hpp : hasPendingPop s = false := by simpa using hpp
        have hlen : s.queue.length < s.limit := by
          rw [readyPush] at hready
          simp [hpp] at hready
          exact hready
        rw [tryPush_room v s hc hlen hpp, Inv_iff]
        have hnp2 : hasPendingPush s = false := by
          cases hb : hasPendingPush s
          · rfl
          · have := h2 hb
            omega
        refine ⟨by simp; omega, ?_, ?_, ?_, by simpa using h5⟩
        · intro hp
          rw [hasPendingPush_set_queue, hnp2] at hp
          cases hp
        · intro hp
          rw [hasPendingPop_set_queue, hpp] at hp
          cases hp
        · intro hcc
          simp [hc] at hcc
    · rw [tryPush_fail v s (Or.inl (by simpa using hready))]
      exact hs
  · rw [tryPush_fail v s (Or.inr hc)]
    exact hs

theorem inv_tryPop (f : Nat) (s : QState α) (hs : Inv s) :
    Inv (tryPop f s).2.2.1 := by
  obtain ⟨h1, h2, h3, h4, h5⟩ := (Inv_iff s).1 hs
  by_cases hpp : hasPendingPush s = true
  · obtain ⟨hh, vv, rest, hops⟩ := head_push_of_hasPendingPush h5 hpp
    have hflag := ((hasPendingPush_iff s).1 hpp).1
    have hlen := h2 hpp
    have hc : s.closeState.value = 0 :=
      open_of_pendingOps_ne_nil h4 (by simp [hops])
    cases hq : s.queue with
    | nil =>
        rw [tryPop_fired_empty f hh vv rest s hflag hops hq, Inv_iff]
        rw [hq] at hlen
        simp only [List.length_nil] at hlen
        refine ⟨by simp, fun _ => by simpa using hlen, fun _ => rfl, ?_,
          (roleOk_cons hops h5).2⟩
        · intro hcc
          simp [hc] at hcc
    | cons w q2 =>
        rw [tryPop_fired_cons f hh vv w q2 rest s hflag hops hq, Inv_iff]
        rw [hq] at hlen
        simp only [List.length_cons] at hlen
        refine ⟨by simp; omega, fun _ => by simp; omega, ?_, ?_,
          (roleOk_cons hops h5).2⟩
        · intro hp
          rw [hasPendingPop_iff] at hp
          simp [hflag] at hp
        · intro hcc
          simp [hc] at hcc
  · replace hpp : hasPendingPush s = false := by simpa using hpp
    cases hq : s.queue with
    | cons v rest =>
        rw [tryPop_direct f v rest s hpp hq, Inv_iff]
        refine ⟨by simp [hq] at h1 ⊢; omega, ?_, ?_, ?_, by simpa using h5⟩
        · intro hp
          rw [hasPendingPush_set_queue, hpp] at hp
          cases hp
        · intro hp
          rw [hasPendingPop_set_queue] at hp
          have := h3 hp
          rw [hq] at this
          cases this
        · intro hcc
          simpa using h4 hcc
    | nil =>
        rw [tryPop_fail f s hpp hq]
        exact hs

theorem inv_cancelOnePush (s : QState α) (hs : Inv s) :
    Inv (cancelOnePush s).2.1 := by
  obtain ⟨h1, h2, h3, h4, h5⟩ := (Inv_iff s).1 hs
  by_cases hpp : hasPendingPush s = true
  · obtain ⟨hh, vv, rest, hops⟩ := head_push_of_hasPendingPush h5 hpp
    have hflag := ((hasPendingPush_iff s).1 hpp).1
    rw [cancelOnePush_one hh vv rest s hflag hops, Inv_iff]
    refine ⟨h1, fun _ => h2 hpp, ?_, ?_, (roleOk_cons hops h5).2⟩
    · intro hp
      rw [hasPendingPop_iff] at hp
      simp [hflag] at hp
    · intro hcc
      have hc := open_of_pendingOps_ne_nil h4 (by simp [hops])
      simp [hc] at hcc
  · rw [cancelOnePush_none s (by simpa using hpp)]
    exact hs

theorem inv_cancelOnePop (s : QState α) (hs : Inv s) :
    Inv (cancelOnePop s).2.1 := by
  obtain ⟨h1, h2, h3, h4, h5⟩ := (Inv_iff s).1 hs
  by_cases hpp : hasPendingPop s = true
  · obtain ⟨hh, ff, rest, hops⟩ := head_pop_of_hasPendingPop h5 hpp
    have hflag := ((hasPendingPop_iff s).1 hpp).1
    rw [cancelOnePop_one hh ff rest s hflag hops, Inv_iff]
    refine ⟨h1, ?_, fun _ => h3 hpp, ?_, (roleOk_cons hops h5).2⟩
    · intro hp
      rw [hasPendingPush_iff] at hp
      simp [hflag] at hp
    · intro hcc
      have hc := open_of_pendingOps_ne_nil h4 (by simp [hops])
      simp [hc] at hcc
  · rw [cancelOnePop_none s (by simpa using hpp)]
    exact hs

theorem inv_drained (s : QState α) (hs : Inv s) :
    Inv { s with pendingOps := ([] : List (PendingOp α)) } := by
  obtain ⟨h1, h2, h3, h4, h5⟩ := (Inv_iff s).1 hs
  rw [Inv_iff]
  refine ⟨by simpa using h1, ?_, ?_, fun _ => rfl, by simp [roleOk]⟩
  · intro hp
    rw [hasPendingPush_iff] at hp
    simp at hp
  · intro hp
    rw [hasPendingPop_iff] at hp
    simp at hp

theorem inv_cancel (s : QState α) (hs : Inv s) : Inv (cancel s).2.1 := by
  rw [cancel_spec]
  exact inv_drained s hs

theorem inv_cancelPush (s : QState α) (hs : Inv s) : Inv (cancelPush s).2.1 := by
  unfold cancelPush
  split
  · exact hs
  · exact inv_cancel s hs

theorem inv_cancelPop (s : QState α) (hs : Inv s) : Inv (cancelPop s).2.1 := by
  unfold cancelPop
  split
  · exact hs
  · exact inv_cancel s hs

theorem inv_reset (s : QState α) (_hs : Inv s) : Inv (reset s).1 := by
  rw [reset_spec, Inv_iff]
  refine ⟨by simp, ?_, fun _ => rfl, ?_, by simp [roleOk]⟩
  · intro hp
    rw [hasPendingPush_iff] at hp
    simp at hp
  · intro hcc
    simp at hcc

theorem inv_close (ec : ErrorCode) (s : QState α) (hs : Inv s) :
    Inv (close ec s).2.1 := by
  by_cases hec : ec.value = 0
  · simp [close, hec]
    exact hs
  · rw [close_spec ec hec, Inv_iff]
    obtain ⟨h1, h2, h3, h4, h5⟩ := (Inv_iff s).1 hs
    refine ⟨by simpa using h1, ?_, ?_, fun _ => rfl, by simp [roleOk]⟩
    · intro hp
      rw [hasPendingPush_iff] at hp
      simp at hp
    · intro hp
      rw [hasPendingPop_iff] at hp
      simp at hp

theorem inv_step (op : Op α) (s : QState α) (hs : Inv s) : Inv (step op s).1 := by
  cases op with
  | initPush v h => exact inv_initPush v h s hs
  | initPop h f => exact inv_initPop h f s hs
  | tryPush v => exact inv_tryPush v s hs
  | tryPop f => exact inv_tryPop f s hs
  | cancelOnePush => exact inv_cancelOnePush s hs
  | cancelPush => exact inv_cancelPush s hs
  | cancelOnePop => exact inv_cancelOnePop s hs
  | cancelPop => exact inv_cancelPop s hs
  | cancel => exact inv_cancel s hs
  | reset => exact inv_reset s hs
  | close ec => exact inv_close ec s hs

theorem inv_initQ (ex limit : Nat) : Inv (initQ ex limit : QState α) := by
  rw [Inv_iff]
  refine ⟨by simp [initQ], ?_, ?_, ?_, by simp [roleOk, initQ]⟩
  · intro hp
    rw [hasPendingPush_iff] at hp
    simp [initQ] at hp
  · intro hp
    rw [hasPendingPop_iff] at hp
    simp [initQ] at hp
  · intro hcc
    simp [initQ, ErrorCode.clear] at hcc

theorem inv_moveConstruct (s : QState α) (hs : Inv s) :
    Inv (moveConstruct s).1 ∧ Inv (moveConstruct s).2 := by
  constructor
  · exact hs
  · rw [Inv_iff]
    refine ⟨by simp [moveConstruct], ?_, ?_, fun _ => rfl,
      by simp [roleOk, moveConstruct]⟩
    · intro hp
      rw [hasPendingPush_iff] at hp
      simp [moveConstruct] at hp
    · intro hp
      rw [hasPendingPop_iff] at hp
      simp [moveConstruct] at hp

theorem inv_moveAssign (s t : QState α) (_hs : Inv s) (ht : Inv t) :
    Inv (moveAssign s t).1 ∧ Inv (moveAssign s t).2.1 := by
  constructor
  · exact ht
  · rw [Inv_iff]
    refine ⟨by simp [moveAssign, reset_spec], ?_, ?_, ?_, ?_⟩
    · intro hp
      rw [hasPendingPush_iff] at hp
      simp [moveAssign, reset_spec] at hp
    · intro hp
      rw [hasPendingPop_iff] at hp
      simp [moveAssign, reset_spec] at hp
    · intro hcc
      simp [moveAssign, reset_spec]
    · simp [roleOk, moveAssign, reset_spec]

theorem reachable_inv {s : QState α} (hr : Reachable s) : Inv s := by
  induction hr with
  | init ex limit => exact inv_initQ ex limit
  | step op hs ih => exact inv_step op _ ih
  | moveCtorNew hs ih => exact (inv_moveConstruct _ ih).1
  | moveCtorFrom hs ih => exact (inv_moveConstruct _ ih).2
  | moveAssignNew hs ht ihs iht => exact (inv_moveAssign _ _ ihs iht).1
  | moveAssignFrom hs ht ihs iht => exact (inv_moveAssign _ _ ihs iht).2

/-- C1: on every externally observable state — every state at a lock
acquisition or release boundary, reachable through any sequence of public
operations, for every limit including 0 — the buffer holds at most `limit`
elements, so the `size()` observer never returns a value greater than
`limit()`.  The transient `limit + 1` occupancy (a pop firing a parked push
before extracting) happens strictly inside `step` and is never a reachable
observable state. -/
theorem C1_size_bounded (s : QState α) (hr : Reachable s) :
    size s ≤ s.limit := by
  have h := ((Inv_iff s).1 (reachable_inv hr)).1
  simpa [size] using h

/-- Witness for C1 at a concrete reachable zero-limit state. -/
theorem C1_size_bounded_witness :
    size (step (Op.initPush 42 0) (initQ 0 0 : QState Nat)).1 ≤
      (step (Op.initPush 42 0) (initQ 0 0 : QState Nat)).1.limit :=
  C1_size_bounded _ (Reachable.step _ (Reachable.init 0 0))

/-- C2: in any invariant state whose close-state is a code distinct from ok
(the state left by `close(ec)`, sticky until `reset`), a subsequently
initiated `asyncPush` completes with that code and leaves the whole state — in
particular the buffer — unchanged, and a subsequently initiated `asyncPop`
completes with ok and the moved-out front element while the buffer is
non-empty, and, once the buffer is empty, completes with the close code and
the fallback factory applied to that code. -/
theorem C2_after_close (s : QState α) (v : α) (h f : Nat)
    (hs : Inv s) (hc : s.closeState.value ≠ 0) :
    initPush v h s = (s, [Event.pushDone h s.closeState]) ∧
    (∀ w rest, s.queue = w :: rest →
      initPop h f s =
        ({ s with queue := rest },
          [Event.popDone h ErrorCode.clear (PopResult.elem w)])) ∧
    (s.queue = [] →
      initPop h f s =
        (s, [Event.popDone h s.closeState (PopResult.fromFactory f s.closeState)])) := by
  obtain ⟨h1, h2, h3, h4, h5⟩ := (Inv_iff s).1 hs
  have hops := h4 hc
  refine ⟨initPush_closed v h s hc, ?_, ?_⟩
  · intro w rest hq
    exact initPop_direct h f w rest s (by simp [hasPendingPush, hops]) hq
  · intro hq
    exact initPop_noPending_empty h f s hops hq hc

/-- Witness for C2 at concrete closed states (non-empty and drained buffer). -/
theorem C2_after_close_witness :
    initPush 9 1 (⟨0, 2, [7], [], false, make_error_code .QUEUE_CLOSED⟩ : QState Nat) =
      (⟨0, 2, [7], [], false, make_error_code .QUEUE_CLOSED⟩,
        [Event.pushDone 1 (make_error_code .QUEUE_CLOSED)]) ∧
    initPop 1 2 (⟨0, 2, [7], [], false, make_error_code .QUEUE_CLOSED⟩ : QState Nat) =
      (⟨0, 2, [], [], false, make_error_code .QUEUE_CLOSED⟩,
        [Event.popDone 1 ErrorCode.clear (PopResult.elem 7)]) ∧
    initPop 1 2 (⟨0, 2, [], [], false, make_error_code .QUEUE_CLOSED⟩ : QState Nat) =
      (⟨0, 2, [], [], false, make_error_code .QUEUE_CLOSED⟩,
        [Event.popDone 1 (make_error_code .QUEUE_CLOSED)
          (PopResult.fromFactory 2 (make_error_code .QUEUE_CLOSED))]) :=
  ⟨(C2_after_close _ 9 1 2 (by decide) (by decide)).1,
   (C2_after_close _ 9 1 2 (by decide) (by decide)).2.1 7 [] rfl,
   (C2_after_close _ 9 1 2 (by decide) (by decide)).2.2 rfl⟩

/-- C3: evaluation of `close` at the failing inputs.  The source declares
`bool close(ec)` yet produces no value on either path (`return;` without a
value in the ok branch; falling off the end of the function after closing), so
the model returns `none` in both cases, while the claim — and the function's
own documentation comment — require `false` for the ok code and `true`
otherwise.  The state effects of the claim do hold: the ok code leaves the
queue unchanged, any other code becomes the close-state (and the pending
operations are drained with it). -/
theorem C3_close_return_missing :
    (close (make_error_code .OK) (initQ 0 1 : QState Nat)).1 = none ∧
    (close (make_error_code .OK) (initQ 0 1 : QState Nat)).2.1 = initQ 0 1 ∧
    (close (make_error_code .QUEUE_CLOSED) (initQ 0 1 : QState Nat)).1 = none ∧
    closeStateObs (close (make_error_code .QUEUE_CLOSED) (initQ 0 1 : QState Nat)).2.1 =
      make_error_code .QUEUE_CLOSED := by
  refine ⟨rfl, rfl, rfl, rfl⟩

/-- C4: `tryPop` never suspends and never parks (the pending list never
grows); on failure it reports false, returns the fallback factory applied to
`QUEUE_EMPTY` (the distinct try-only condition code of the queue category) and
leaves the state untouched with nothing posted; a non-empty buffer makes it
succeed with the moved-out front element regardless of the close-state. -/
theorem C4_tryPop (s : QState α) (f : Nat) (hs : Inv s) :
    ((tryPop f s).1 = false →
      (tryPop f s).2.1 = PopResult.fromFactory f (make_error_code .QUEUE_EMPTY) ∧
      (tryPop f s).2.2.1 = s ∧ (tryPop f s).2.2.2 = []) ∧
    (∀ v q, s.queue = v :: q →
      (tryPop f s).1 = true ∧ (tryPop f s).2.1 = PopResult.elem v) ∧
    (∀ h2 v2 rest, s.pendingOps = PendingOp.push h2 v2 :: rest → s.queue = [] →
      (tryPop f s).1 = true ∧ (tryPop f s).2.1 = PopResult.elem v2) ∧
    ((tryPop f s).2.2.1.pendingOps = s.pendingOps ∨
      (tryPop f s).2.2.1.pendingOps = s.pendingOps.tail) := by
  obtain ⟨h1, h2, h3, h4, h5⟩ := (Inv_iff s).1 hs
  refine ⟨?_, ?_, ?_, tryPop_noPark f s⟩
  · by_cases hpp : hasPendingPush s = true
    · obtain ⟨hh, vv, rest, hops⟩ := head_push_of_hasPendingPush h5 hpp
      have hflag := ((hasPendingPush_iff s).1 hpp).1
      cases hq : s.queue with
      | nil =>
          rw [tryPop_fired_empty f hh vv rest s hflag hops hq]
          intro hx
          simp at hx
      | cons w q2 =>
          rw [tryPop_fired_cons f hh vv w q2 rest s hflag hops hq]
          intro hx
          simp at hx
    · replace hpp : hasPendingPush s = false := by simpa using hpp
      cases hq : s.queue with
      | nil =>
          rw [tryPop_fail f s hpp hq]
          exact fun _ => ⟨rfl, rfl, rfl⟩
      | cons w q2 =>
          rw [tryPop_direct f w q2 s hpp hq]
          intro hx
          simp at hx
  · intro v q hq
    by_cases hpp : hasPendingPush s = true
    · obtain ⟨hh, vv, rest, hops⟩ := head_push_of_hasPendingPush h5 hpp
      rw [tryPop_fired_cons f hh vv v q rest s
        ((hasPendingPush_iff s).1 hpp).1 hops hq]
      exact ⟨rfl, rfl⟩
    · replace hpp : hasPendingPush s = false := by simpa using hpp
      rw [tryPop_direct f v q s hpp hq]
      exact ⟨rfl, rfl⟩
  · intro h2 v2 rest hops hq
    have hflag : s.pendingOpsIsPushers = true := by
      have := (roleOk_cons hops h5).1
      simpa [opIsPush] using this.symm
    rw [tryPop_fired_empty f h2 v2 rest s hflag hops hq]
    exact ⟨rfl, rfl⟩

/-- Witness for C4: success with the front element on a closed, non-empty
queue. -/
theorem C4_tryPop_witness :
    (tryPop 3 (⟨0, 1, [5], [], false, make_error_code .QUEUE_CLOSED⟩ : QState Nat)).1 = true ∧
    (tryPop 3 (⟨0, 1, [5], [], false, make_error_code .QUEUE_CLOSED⟩ : QState Nat)).2.1 =
      PopResult.elem 5 :=
  (C4_tryPop _ 3 (by decide)).2.1 5 [] rfl

/-- C5 as stated is false on the code: with limit 0 (the rendezvous mode the
claim explicitly includes) an isolated `asyncPush` parks, leaving a reachable
state with `size = 0` and a pending push handler waiting, contradicting
"if size equals 0 then no pending push handler is waiting". -/
theorem C5_counterexample :
    Reachable (step (Op.initPush 42 0) (initQ 0 0 : QState Nat)).1 ∧
    size (step (Op.initPush 42 0) (initQ 0 0 : QState Nat)).1 = 0 ∧
    hasPendingPush (step (Op.initPush 42 0) (initQ 0 0 : QState Nat)).1 = true :=
  ⟨Reachable.step _ (Reachable.init 0 0), by decide, by decide⟩

/-- C5 amended: after every externally visible operation, for every positive
limit, if `size` equals the limit then no pending pop handler is waiting, and
if `size` equals 0 then no pending push handler is waiting.  (For limit 0 both
implications fail: parked operations of either role wait precisely while
`size = 0 = limit`.) -/
theorem C5_amended (s : QState α) (hr : Reachable s) (hl : 0 < s.limit) :
    (size s = s.limit → hasPendingPop s = false) ∧
    (size s = 0 → hasPendingPush s = false) := by
  obtain ⟨h1, h2, h3, h4, h5⟩ := (Inv_iff s).1 (reachable_inv hr)
  constructor
  · intro hsz
    cases hb : hasPendingPop s
    · rfl
    · have hq := h3 hb
      have hlen : s.queue.length = s.limit := hsz
      rw [hq] at hlen
      simp at hlen
      omega
  · intro hsz
    cases hb : hasPendingPush s
    · rfl
    · have hlen := h2 hb
      have hz : s.queue.length = 0 := hsz
      omega

/-- Witness for C5 amended at a concrete reachable full limit-1 state. -/
theorem C5_amended_witness :
    hasPendingPop (step (Op.initPush 7 1) (initQ 0 1 : QState Nat)).1 = false :=
  (C5_amended _ (Reachable.step _ (Reachable.init 0 1)) (by decide)).1 (by decide)

/-- C6: FIFO discipline of both structures.  (a) Pushing a list of values
into an open queue with no parked operations and enough room appends them to
the buffer in order, and (b) popping the whole buffer returns its elements in
insertion order (`std::queue` front-out).  (c) Draining the parked operations
(`doCancel`, used by `cancel`, `close` and `reset`) posts exactly one
completion per parked operation, in the order they were parked.  (d)
`FunctionQueue::pop` (`m_pendingOps.pop`, used by `doPendingPush` /
`doPendingPop`) removes precisely the front entry, while `deferPush` /
`deferPop` append at the back. -/
theorem C6_fifo :
    (∀ (vs : List α) (s : QState α),
        s.closeState.value = 0 → s.pendingOps = [] →
        s.queue.length + vs.length ≤ s.limit →
        tryPushAll vs s = { s with queue := s.queue ++ vs }) ∧
    (∀ (q : List α) (s : QState α), s.pendingOps = [] → s.queue = q →
        tryPopAll q.length s = (q.map PopResult.elem, { s with queue := [] })) ∧
    (∀ (ec : ErrorCode) (s : QState α), ec.value ≠ 0 →
        (doCancel ec s).2.2 = s.pendingOps.map (cancelEvent ec)) ∧
    (∀ (ec : ErrorCode) (op : PendingOp α) (rest : List (PendingOp α))
        (s : QState α), s.pendingOps = op :: rest →
        (pendingOpsPop ec s).1.pendingOps = rest) ∧
    (∀ (h f : Nat) (v : α) (s : QState α),
        (deferPush h v s).pendingOps = s.pendingOps ++ [PendingOp.push h v] ∧
        (deferPop h f s).pendingOps = s.pendingOps ++ [PendingOp.pop h f]) := by
  refine ⟨tryPushAll_spec, tryPopAll_spec, ?_, ?_, ?_⟩
  · intro ec s hec
    rw [doCancel_spec ec hec s]
  · intro ec op rest s hops
    unfold pendingOpsPop
    rw [hops]
    simp [firePending_pendingOps]
  · intro h f v s
    exact ⟨rfl, rfl⟩

/-- Witness for C6 at concrete inputs: three pushes land in order, three pops
return them in order, draining two parked operations completes them in park
order, and firing removes the front entry. -/
theorem C6_fifo_witness :
    tryPushAll [1, 2, 3] (initQ 0 3 : QState Nat) =
      (⟨0, 3, [1, 2, 3], [], false, ErrorCode.clear⟩ : QState Nat) ∧
    tryPopAll 3 (⟨0, 3, [1, 2, 3], [], false, ErrorCode.clear⟩ : QState Nat) =
      ([PopResult.elem 1, PopResult.elem 2, PopResult.elem 3],
        (⟨0, 3, [], [], false, ErrorCode.clear⟩ : QState Nat)) ∧
    (doCancel (make_error_code .OPERATION_CANCELLED)
        (⟨0, 1, [9], [PendingOp.push 1 10, PendingOp.push 2 11], true,
          ErrorCode.clear⟩ : QState Nat)).2.2 =
      [Event.pushDone 1 (make_error_code .OPERATION_CANCELLED),
        Event.pushDone 2 (make_error_code .OPERATION_CANCELLED)] ∧
    (pendingOpsPop (make_error_code .OPERATION_CANCELLED)
        (⟨0, 1, [9], [PendingOp.push 1 10, PendingOp.push 2 11], true,
          ErrorCode.clear⟩ : QState Nat)).1.pendingOps = [PendingOp.push 2 11] :=
  ⟨C6_fifo.1 [1, 2, 3] (initQ 0 3) rfl rfl (by decide),
   C6_fifo.2.1 [1, 2, 3] _ rfl rfl,
   C6_fifo.2.2.1 _ _ (by decide),
   C6_fifo.2.2.2.1 _ _ _ _ rfl⟩

/-- C7 as stated is false on the code: the move constructor copies the
source's close-state instead of clearing it (only move assignment calls
`other.reset()`), so move-constructing from a reachable closed queue leaves a
moved-from queue that is not open. -/
theorem C7_counterexample :
    Reachable (step (Op.close (make_error_code .QUEUE_CLOSED))
      (initQ 5 2 : QState Nat)).1 ∧
    isOpen ((moveConstruct (step (Op.close (make_error_code .QUEUE_CLOSED))
      (initQ 5 2 : QState Nat)).1).2) = false :=
  ⟨Reachable.step _ (Reachable.init 5 2), by decide⟩

/-- C7 amended: after move construction the moved-from queue is empty, holds
no pending operations and keeps a copied, still-valid executor handle and its
limit, but its close-state is copied rather than cleared (so it is open only
if the source was open); after move assignment the moved-from queue is
additionally reset: empty, no pending operations, open, with the copied
executor and limit. -/
theorem C7_amended (s t : QState α) :
    ((moveConstruct s).2.queue = [] ∧ (moveConstruct s).2.pendingOps = [] ∧
      (moveConstruct s).2.ex = s.ex ∧ (moveConstruct s).2.limit = s.limit ∧
      (moveConstruct s).2.closeState = s.closeState) ∧
    ((moveAssign s t).2.1.queue = [] ∧ (moveAssign s t).2.1.pendingOps = [] ∧
      (moveAssign s t).2.1.ex = t.ex ∧ (moveAssign s t).2.1.limit = t.limit ∧
      isOpen (moveAssign s t).2.1 = true) := by
  refine ⟨⟨rfl, rfl, rfl, rfl, rfl⟩, ?_⟩
  simp [moveAssign, reset_spec, isOpen]

/-- Witness for C7 amended at concrete states: the move constructor copies a
closed source's close-state; move assignment leaves the moved-from queue
open. -/
theorem C7_amended_witness :
    (moveConstruct (⟨5, 2, [1], [], false,
        make_error_code .QUEUE_CLOSED⟩ : QState Nat)).2.closeState =
      make_error_code .QUEUE_CLOSED ∧
    isOpen (moveAssign (initQ 0 1 : QState Nat)
      (⟨5, 2, [1], [], false, make_error_code .QUEUE_CLOSED⟩ : QState Nat)).2.1 =
      true :=
  ⟨(C7_amended (⟨5, 2, [1], [], false,
      make_error_code .QUEUE_CLOSED⟩ : QState Nat) (initQ 0 1)).1.2.2.2.2,
   (C7_amended (initQ 0 1 : QState Nat) (⟨5, 2, [1], [], false,
      make_error_code .QUEUE_CLOSED⟩ : QState Nat)).2.2.2.2.2⟩

/-- C8: `reset()` empties the buffer, completes every pending operation with
`OPERATION_CANCELLED` (one completion each, in park order), clears the
close-state back to open, and leaves a queue observably equivalent to a
freshly constructed one with the same executor and limit: `size()` is 0,
`empty()` and `isOpen()` are true, `closeState()` is the cleared ok code, and
`cancel()` returns 0. -/
theorem C8_reset (s : QState α) :
    size (reset s).1 = 0 ∧
    empty (reset s).1 = true ∧
    isOpen (reset s).1 = true ∧
    closeStateObs (reset s).1 = ErrorCode.clear ∧
    (cancel (reset s).1).1 = 0 ∧
    (reset s).1.ex = s.ex ∧
    (reset s).1.limit = s.limit ∧
    (reset s).2 =
      s.pendingOps.map (cancelEvent (make_error_code .OPERATION_CANCELLED)) := by
  rw [reset_spec]
  refine ⟨rfl, rfl, rfl, rfl, ?_, rfl, rfl, rfl⟩
  simp [cancel_spec]

/-- Witness for C8 at a concrete closed queue with one parked push. -/
theorem C8_reset_witness :
    size (reset (⟨0, 1, [4], [PendingOp.push 9 8], true,
      make_error_code .QUEUE_CLOSED⟩ : QState Nat)).1 = 0 ∧
    isOpen (reset (⟨0, 1, [4], [PendingOp.push 9 8], true,
      make_error_code .QUEUE_CLOSED⟩ : QState Nat)).1 = true ∧
    (reset (⟨0, 1, [4], [PendingOp.push 9 8], true,
      make_error_code .QUEUE_CLOSED⟩ : QState Nat)).2 =
      [Event.pushDone 9 (make_error_code .OPERATION_CANCELLED)] :=
  ⟨(C8_reset _).1, (C8_reset _).2.2.1, (C8_reset _).2.2.2.2.2.2.2⟩

/-- C9 as stated is false on the code: `tryPush` into a reachable queue with
a parked pop fires that pop, posting its user handler's completion — so a try
operation does cause a user handler to be invoked (via the executor). -/
theorem C9_counterexample :
    Reachable (step (Op.initPop 7 3) (initQ 0 1 : QState Nat)).1 ∧
    (tryPush 42 (step (Op.initPop 7 3) (initQ 0 1 : QState Nat)).1).2.2 =
      [Event.popDone 7 ErrorCode.clear (PopResult.elem 42)] :=
  ⟨Reachable.step _ (Reachable.init 0 1), by decide⟩

/-- C9 amended: `tryPush` and `tryPop` never add an operation to the
pending-operation list (it is left equal or loses exactly its front entry, the
counterpart they fired), and they never invoke a user handler on the caller's
stack: the only completions they post belong to handlers of operations that
were already parked — the try operations themselves carry no handler. -/
theorem C9_amended (v : α) (f : Nat) (s : QState α) :
    ((tryPush v s).2.1.pendingOps = s.pendingOps ∨
      (tryPush v s).2.1.pendingOps = s.pendingOps.tail) ∧
    ((tryPop f s).2.2.1.pendingOps = s.pendingOps ∨
      (tryPop f s).2.2.1.pendingOps = s.pendingOps.tail) ∧
    eventsFromParked (tryPush v s).2.2 s.pendingOps = true ∧
    eventsFromParked (tryPop f s).2.2.2 s.pendingOps = true := by
  refine ⟨tryPush_noPark v s, tryPop_noPark f s, ?_, ?_⟩
  · rw [eventsFromParked, List.all_eq_true]
    intro e he
    rw [decide_eq_true_eq, List.mem_map]
    obtain ⟨op, hmem, heq⟩ := tryPush_events_parked v s e he
    exact ⟨op, hmem, heq.symm⟩
  · rw [eventsFromParked, List.all_eq_true]
    intro e he
    rw [decide_eq_true_eq, List.mem_map]
    obtain ⟨op, hmem, heq⟩ := tryPop_events_parked f s e he
    exact ⟨op, hmem, heq.symm⟩

/-- Witness for C9 amended: the completion posted by a tryPush that fires a
parked pop belongs to the parked pop's handler. -/
theorem C9_amended_witness :
    eventsFromParked (tryPush 42 (⟨0, 1, [], [PendingOp.pop 7 3], false,
      ErrorCode.clear⟩ : QState Nat)).2.2 [PendingOp.pop 7 3] = true :=
  (C9_amended 42 0 (⟨0, 1, [], [PendingOp.pop 7 3], false,
    ErrorCode.clear⟩ : QState Nat)).2.2.1

/-- C10: whenever `tryPush` returns false, or `tryPop` reports failure, the
queue is left exactly as it was: the buffer, the pending-operation list, its
role flag and the close-state are all unchanged (the whole state is equal),
and nothing is posted. -/
theorem C10_try_fail_no_change (v : α) (f : Nat) (s : QState α) (hs : Inv s) :
    ((tryPush v s).1 = false → (tryPush v s).2.1 = s ∧ (tryPush v s).2.2 = []) ∧
    ((tryPop f s).1 = false → (tryPop f s).2.2.1 = s ∧ (tryPop f s).2.2.2 = []) := by
  obtain ⟨h1, h2, h3, h4, h5⟩ := (Inv_iff s).1 hs
  constructor
  · simp only [tryPush]
    split
    · exact fun _ => ⟨rfl, rfl⟩
    · intro hx
      simp at hx
  · by_cases hpp : hasPendingPush s = true
    · obtain ⟨hh, vv, rest, hops⟩ := head_push_of_hasPendingPush h5 hpp
      have hflag := ((hasPendingPush_iff s).1 hpp).1
      cases hq : s.queue with
      | nil =>
          rw [tryPop_fired_empty f hh vv rest s hflag hops hq]
          intro hx
          simp at hx
      | cons w q2 =>
          rw [tryPop_fired_cons f hh vv w q2 rest s hflag hops hq]
          intro hx
          simp at hx
    · replace hpp : hasPendingPush s = false := by simpa using hpp
      cases hq : s.queue with
      | nil =>
          rw [tryPop_fail f s hpp hq]
          exact fun _ => ⟨rfl, rfl⟩
      | cons w q2 =>
          rw [tryPop_direct f w q2 s hpp hq]
          intro hx
          simp at hx

/-- Witness for C10: a fresh zero-limit queue fails both try operations and
is left exactly as it was. -/
theorem C10_try_fail_no_change_witness :
    (tryPush 1 (initQ 0 0 : QState Nat)).2.1 = initQ 0 0 ∧
    (tryPush 1 (initQ 0 0 : QState Nat)).2.2 = [] ∧
    (tryPop 3 (initQ 0 0 : QState Nat)).2.2.1 = initQ 0 0 ∧
    (tryPop 3 (initQ 0 0 : QState Nat)).2.2.2 = [] := by
  have h := C10_try_fail_no_change 1 3 (initQ 0 0 : QState Nat) (by decide)
  exact ⟨(h.1 (by decide)).1, (h.1 (by decide)).2,
    (h.2 (by decide)).1, (h.2 (by decide)).2⟩

end BaAsync
